import Mathlib

/-!
Shallow embedding of the RL scheduler kernel module (`rl_sched_mod.c`):
CPU-delta state classification, the per-pid learning table, epsilon-greedy
action choice, the fixed-point Q-learning update, nice clamping and
actuation, and the per-process body of the sampling loop (`rl_worker`),
together with theorems checking the specification's claims about them.

Modelling conventions: C's truncating (toward-zero) integer division on
signed `long` is `Int.tdiv`; unsigned 64-bit quantities that the claims
exercise far from overflow are `Nat`; the `LONG_MIN` scan sentinel is
modelled by letting the first scanned element always replace the initial
value, which is exactly what the C comparison does whenever the table does
not contain `LONG_MIN` itself; `get_random_u32` draws are passed in as
explicit parameters; the kernel task list and `kzalloc` success are inputs
of the step function.
-/

namespace RlSched

/-- The `enum rl_state` of the module: LOW / MED / HIGH CPU-delta buckets
(C values 0, 1, 2). -/
inductive RlState : Type where
  | low
  | med
  | high
deriving DecidableEq, Repr

/-- Numeric value of the C enum constant for an `RlState`. -/
def RlState.toNat : RlState → Nat
  | RlState.low => 0
  | RlState.med => 1
  | RlState.high => 2

/-- The C enum constant `RL_NOOP = 2` (stored in the `int prev_action`
field). -/
def RL_NOOP : Int := 2

/-- `cpu_delta_to_state`: categorize a CPU delta (ns) into a state bucket. -/
def cpu_delta_to_state (delta_ns : Nat) : RlState :=
  if delta_ns < 1000000 then RlState.low
  else if delta_ns < 50000000 then RlState.med
  else RlState.high

/-- `struct pid_entry`: the per-pid learning record.  The q-table is a
total function on the 3 states and 3 actions; `prev_action` is an `int` in
the C source (the worker guards `0 <= prev_action < NUM_ACTIONS` before
using it as an index). -/
structure pid_entry where
  pid : Int
  prev_runtime : Nat
  qtable : RlState → Fin 3 → Int
  prev_state : RlState
  prev_action : Int

/-- The entry `get_pid_entry` builds after a successful `kzalloc`
(zero-filled, then the shown fields are assigned). -/
def new_entry (pid : Int) : pid_entry :=
  { pid := pid
    prev_runtime := 0
    qtable := fun _ _ => 0
    prev_state := RlState.low
    prev_action := RL_NOOP }

/-- The `list_for_each_entry` search inside `get_pid_entry`: first entry
whose pid matches. -/
def find_entry (pid : Int) : List pid_entry → Option pid_entry
  | [] => none
  | e :: rest => if e.pid = pid then some e else find_entry pid rest

/-- `get_pid_entry`: return the existing entry, else allocate and prepend a
fresh one (`list_add` inserts at the head); `allocOk` models whether
`kzalloc` succeeds, a failure returns `none` with the table unchanged. -/
def get_pid_entry (allocOk : Bool) (pid : Int) (table : List pid_entry) :
    Option pid_entry × List pid_entry :=
  match find_entry pid table with
  | some e => (some e, table)
  | none =>
    if allocOk then (some (new_entry pid), new_entry pid :: table)
    else (none, table)

/-- `clamp_nice`: clamp a nice value between -20 and 19. -/
def clamp_nice (nice : Int) : Int :=
  if nice < -20 then -20
  else if nice > 19 then 19
  else nice

/-- The greedy arm of `choose_action`: linear scan with strict `>` starting
from `best = LONG_MIN, best_a = 0`; with unbounded integers the first row
entry always replaces the initial sentinel. -/
def greedy_action (row : Fin 3 → Int) : Fin 3 :=
  let b0 := row 0
  let p1 : Int × Fin 3 := if row 1 > b0 then (row 1, 1) else (b0, 0)
  if row 2 > p1.1 then 2 else p1.2

/-- `choose_action`: epsilon-greedy over a q-table row.  `r1` and `r2` are
the two `get_random_u32` draws (threshold draw, then uniform action draw);
`epsilon` is the `epsilon_permille` parameter, modelled as `Nat` since the
C comparison `u32 < int` promotes the parameter to unsigned. -/
def choose_action (epsilon : Nat) (r1 r2 : Nat) (row : Fin 3 → Int) : Fin 3 :=
  if r1 % 1000 < epsilon then ⟨r2 % 3, Nat.mod_lt r2 (by decide)⟩
  else greedy_action row

/-- The `best_next` scan of `q_update`: strict-`>` fold over the next
state's row, starting from `LONG_MIN` (first element always taken in the
unbounded model; the `best_next == LONG_MIN → 0` fallback is unreachable
for a 3-entry row of unbounded integers). -/
def best_next (row : Fin 3 → Int) : Int :=
  let b0 := row 0
  let b1 := if row 1 > b0 then row 1 else b0
  if row 2 > b1 then row 2 else b1

/-- `q_update`: the fixed-point Q-learning update, all divisions being C's
truncating `long` division (`Int.tdiv`).  Mutating `pe->qtable[s][a]` is
modelled by returning the updated table function. -/
def q_update (alpha gamma : Int) (qt : RlState → Fin 3 → Int) (s : RlState)
    (a : Fin 3) (reward : Int) (s_next : RlState) : RlState → Fin 3 → Int :=
  let q := qt s a
  let bn := best_next (qt s_next)
  let tmp := reward + Int.tdiv (gamma * bn) 1000 - q
  let q2 := q + Int.tdiv (alpha * tmp) 1000
  fun s2 a2 => if s2 = s ∧ a2 = a then q2 else qt s2 a2

/-- The new nice value computed by `apply_action_to_task` before the
write-if-changed check: switch on the action (0 = RL_DEC_NICE,
1 = RL_INC_NICE, default = no change), then `clamp_nice`. -/
def new_nice_for (action_step cur_nice action : Int) : Int :=
  let n :=
    if action = 0 then cur_nice - action_step
    else if action = 1 then cur_nice + action_step
    else cur_nice
  clamp_nice n

/-- `apply_action_to_task`: returns the task's nice after the call together
with `some (old, new)` exactly when `set_user_nice` was invoked (the code
writes only when the clamped new value differs from the current one). -/
def apply_action_to_task (action_step cur_nice action : Int) :
    Int × Option (Int × Int) :=
  let nn := new_nice_for action_step cur_nice action
  if nn ≠ cur_nice then (nn, some (cur_nice, nn)) else (cur_nice, none)

/-- The fields of a `task_struct` that `rl_worker` reads. -/
structure Proc where
  pid : Int
  exit_zombie : Bool
  exit_dead : Bool
  sum_exec_runtime : Nat
  nice : Int

/-- Observable side effects of one `for_each_process` body iteration:
the argument tuple `(prev_state, prev_action, reward, next_state)` of the
`q_update` call if one happened, and the `(old, new)` nice write if one
happened. -/
structure StepEvents where
  q_updated : Option (RlState × Int × Int × RlState)
  nice_write : Option (Int × Int)
deriving DecidableEq, Repr

/-- No side effects (process skipped or only bookkeeping done). -/
def noEvents : StepEvents := { q_updated := none, nice_write := none }

/-- In-place mutation of the entry found in the list: replace the first
entry carrying the same pid. -/
def set_entry (e2 : pid_entry) : List pid_entry → List pid_entry
  | [] => []
  | e :: rest => if e.pid = e2.pid then e2 :: rest else e :: set_entry e2 rest

/-- The module parameters consumed by the worker. -/
structure Config where
  alpha : Int
  gamma : Int
  epsilon : Nat
  action_step : Int

/-- One iteration of the `for_each_process` body in `rl_worker` for process
`p` against `table`: skip zombies/dead, find-or-create the entry (skip on
allocation failure), first-observation bookkeeping, else classify the
clamped delta, choose and apply an action, and run the guarded `q_update`
on the previous (state, action) pair. -/
def worker_step (cfg : Config) (r1 r2 : Nat) (allocOk : Bool) (p : Proc)
    (table : List pid_entry) : List pid_entry × StepEvents :=
  if p.exit_zombie || p.exit_dead then (table, noEvents)
  else
    let curr := p.sum_exec_runtime
    match get_pid_entry allocOk p.pid table with
    | (none, t2) => (t2, noEvents)
    | (some pe, t2) =>
      if pe.prev_runtime = 0 then
        (set_entry { pe with prev_runtime := curr } t2, noEvents)
      else
        let delta : Nat :=
          if pe.prev_runtime ≤ curr then curr - pe.prev_runtime else 0
        let st := cpu_delta_to_state delta
        let action := choose_action cfg.epsilon r1 r2 (pe.qtable st)
        let wr := (apply_action_to_task cfg.action_step p.nice (action.val : Int)).2
        let reward : Int := -((delta / 1000000 : Nat) : Int)
        let upd : Option (RlState × Int × Int × RlState) :=
          if 0 ≤ pe.prev_action ∧ pe.prev_action < 3 then
            some (pe.prev_state, pe.prev_action, reward, st)
          else none
        let qt2 :=
          if h : 0 ≤ pe.prev_action ∧ pe.prev_action < 3 then
            q_update cfg.alpha cfg.gamma pe.qtable pe.prev_state
              ⟨pe.prev_action.toNat, by omega⟩ reward st
          else pe.qtable
        let pe2 : pid_entry :=
          { pe with
              qtable := qt2
              prev_state := st
              prev_action := (action.val : Int)
              prev_runtime := curr }
        (set_entry pe2 t2, { q_updated := upd, nice_write := wr })

/-- One full enumeration pass of `rl_worker` over the process list,
threading the table; `rands` supplies each process's two random draws and
`allocOk` whether its allocation (if needed) succeeds. -/
def worker_tick (cfg : Config) (rands : Int → Nat × Nat)
    (allocOk : Int → Bool) :
    List Proc → List pid_entry → List pid_entry × List StepEvents
  | [], table => (table, [])
  | p :: rest, table =>
    let r := rands p.pid
    let res := worker_step cfg r.1 r.2 (allocOk p.pid) p table
    let tail := worker_tick cfg rands allocOk rest res.1
    (tail.1, res.2 :: tail.2)

/-- A q-table row with a manufactured tie at the maximum (actions 0 and 1
both score 5). -/
def tieRow : Fin 3 → Int :=
  fun i => if i.val = 0 then 5 else if i.val = 1 then 5 else 3

/-- The `best_next` scan computes the maximum of the row. -/
theorem best_next_eq_max (row : Fin 3 → Int) :
    best_next row = max (max (row 0) (row 1)) (row 2) := by
  simp only [best_next]
  split_ifs <;> omega

/-- Claim C4: `cpu_delta_to_state` classifies exactly by the 1 ms and 50 ms
boundaries, and is therefore monotone under the ordering LOW < MED < HIGH. -/
theorem cpu_delta_to_state_spec :
    (∀ d : Nat,
      (cpu_delta_to_state d = RlState.low ↔ d < 1000000)
      ∧ (cpu_delta_to_state d = RlState.med ↔ 1000000 ≤ d ∧ d < 50000000)
      ∧ (cpu_delta_to_state d = RlState.high ↔ 50000000 ≤ d))
    ∧ ∀ d1 d2 : Nat, d1 < d2 →
        (cpu_delta_to_state d1).toNat ≤ (cpu_delta_to_state d2).toNat := by
  constructor
  · intro d
    simp only [cpu_delta_to_state]
    split_ifs <;> simp_all <;> omega
  · intro d1 d2 h
    simp only [cpu_delta_to_state]
    split_ifs <;> simp [RlState.toNat] <;> omega

/-- Witness for C4 at a concrete pair of deltas. -/
theorem cpu_delta_to_state_spec_witness :
    (cpu_delta_to_state 3).toNat ≤ (cpu_delta_to_state 70000000).toNat :=
  cpu_delta_to_state_spec.2 3 70000000 (by decide)

/-- Claim C2: `q_update` writes exactly the `(s, a)` cell, setting it to
`q + (alpha * (reward + (gamma * bestNext) / 1000 - q)) / 1000` where `q`
is the prior value, `bestNext` is the maximum of the `s_next` row (0 for an
all-zero row, its maximum), and every division is `Int.tdiv`, C's
truncation toward zero; every other cell is unchanged. -/
theorem q_update_formula (alpha gamma : Int) (qt : RlState → Fin 3 → Int)
    (s : RlState) (a : Fin 3) (reward : Int) (s_next : RlState) :
    (q_update alpha gamma qt s a reward s_next) s a
      = qt s a
        + Int.tdiv
            (alpha * (reward
              + Int.tdiv
                  (gamma * max (max (qt s_next 0) (qt s_next 1)) (qt s_next 2))
                  1000
              - qt s a))
            1000
    ∧ ∀ s2 a2, ¬(s2 = s ∧ a2 = a) →
        (q_update alpha gamma qt s a reward s_next) s2 a2 = qt s2 a2 := by
  constructor
  · simp [q_update, best_next_eq_max]
  · intro s2 a2 h
    simp [q_update, h]

/-- Witness for C2: the frame condition at a concrete cell. -/
theorem q_update_formula_witness :
    (q_update 200 900 (fun _ _ => (3 : Int)) RlState.low 0 (-7) RlState.high)
      RlState.med 1 = 3 :=
  (q_update_formula 200 900 (fun _ _ => 3) RlState.low 0 (-7) RlState.high).2
    RlState.med 1 (by decide)

/-- Claim C5: with `alpha = 1000` (1.0) and `gamma = 0`, `q_update` sets
the `(s, a)` cell exactly to the reward, for any prior table, reward and
next state. -/
theorem q_update_alpha_one_gamma_zero (qt : RlState → Fin 3 → Int)
    (s : RlState) (a : Fin 3) (reward : Int) (s_next : RlState) :
    (q_update 1000 0 qt s a reward s_next) s a = reward := by
  have hc : Int.tdiv ((1000 : Int) * (reward - qt s a)) 1000 = reward - qt s a :=
    Int.mul_tdiv_cancel_left _ (by norm_num)
  simp only [q_update, zero_mul, Int.zero_tdiv, add_zero]
  simp [hc]

/-- Unrolled form of the greedy scan's (best, best_a) accumulator. -/
theorem greedy_action_eq (row : Fin 3 → Int) :
    greedy_action row
      = if row 1 > row 0 then (if row 2 > row 1 then 2 else 1)
        else (if row 2 > row 0 then 2 else 0) := by
  simp only [greedy_action]
  by_cases h1 : row 1 > row 0 <;> simp [h1]

/-- The greedy scan attains the row maximum and, among indices attaining
it, returns the lowest one. -/
theorem greedy_action_spec (row : Fin 3 → Int) :
    row (greedy_action row) = max (max (row 0) (row 1)) (row 2)
    ∧ (row 0 = max (max (row 0) (row 1)) (row 2) → greedy_action row = 0)
    ∧ (row 1 = max (max (row 0) (row 1)) (row 2) →
        greedy_action row = 0 ∨ greedy_action row = 1) := by
  rw [greedy_action_eq]
  split_ifs with h1 h2 h3 <;>
    refine ⟨by omega, fun h => ?_, fun h => ?_⟩ <;>
      first
        | rfl
        | (left; rfl)
        | (right; rfl)
        | (exfalso; omega)

/-- Claim C3: with `epsilon = 0`, `choose_action` ignores the random draws
and deterministically returns the index of the maximum-valued action of
the row; when several actions share that maximum it returns the lowest
such index (it attains the maximum, it is 0 whenever action 0 attains it,
and it is 0 or 1 whenever action 1 attains it). -/
theorem choose_action_greedy (r1 r2 : Nat) (row : Fin 3 → Int) :
    (∀ r3 r4 : Nat, choose_action 0 r1 r2 row = choose_action 0 r3 r4 row)
    ∧ row (choose_action 0 r1 r2 row) = max (max (row 0) (row 1)) (row 2)
    ∧ (row 0 = max (max (row 0) (row 1)) (row 2) →
        choose_action 0 r1 r2 row = 0)
    ∧ (row 1 = max (max (row 0) (row 1)) (row 2) →
        choose_action 0 r1 r2 row = 0 ∨ choose_action 0 r1 r2 row = 1) := by
  have hc : ∀ a b : Nat, choose_action 0 a b row = greedy_action row := by
    intro a b
    simp [choose_action]
  refine ⟨fun r3 r4 => by rw [hc, hc], ?_, ?_, ?_⟩ <;> rw [hc]
  · exact (greedy_action_spec row).1
  · exact (greedy_action_spec row).2.1
  · exact (greedy_action_spec row).2.2

/-- Witness for C3 on a row with a manufactured tie at the maximum. -/
theorem choose_action_greedy_witness :
    choose_action 0 17 42 tieRow = 0
    ∧ tieRow (choose_action 0 17 42 tieRow)
        = max (max (tieRow 0) (tieRow 1)) (tieRow 2) :=
  ⟨(choose_action_greedy 17 42 tieRow).2.2.1 (by decide),
   (choose_action_greedy 17 42 tieRow).2.1⟩

/-- Claim C6: the actuator's new nice is always clamped into [-20, 19]
(so repeated DECREASE from -18 with step 5 stays at or above -20 and
repeated INCREASE from 15 with step 5 stays at or below 19), the nice
write happens exactly when the clamped value differs from the current one,
and the no-op action never writes from any valid starting nice (task nice
values always lie in [-20, 19]). -/
theorem apply_action_spec (step cur action : Int) :
    (-20 ≤ new_nice_for step cur action ∧ new_nice_for step cur action ≤ 19)
    ∧ ((apply_action_to_task step cur action).2
        = if new_nice_for step cur action ≠ cur
          then some (cur, new_nice_for step cur action) else none)
    ∧ (-20 ≤ cur → cur ≤ 19 →
        (apply_action_to_task step cur RL_NOOP).2 = none) := by
  refine ⟨?_, ?_, ?_⟩
  · simp only [new_nice_for, clamp_nice]
    split_ifs <;> omega
  · simp only [apply_action_to_task]
    split_ifs <;> simp_all
  · intro h1 h2
    have hn : new_nice_for step cur RL_NOOP = cur := by
      simp only [new_nice_for, RL_NOOP, clamp_nice]
      split_ifs <;> omega
    simp [apply_action_to_task, hn]

/-- Witness for C6: clamped DECREASE from -18 with step 5, and a no-op
write check from nice 3. -/
theorem apply_action_spec_witness :
    (-20 ≤ new_nice_for 5 (-18) 0 ∧ new_nice_for 5 (-18) 0 ≤ 19)
    ∧ (apply_action_to_task 5 3 RL_NOOP).2 = none :=
  ⟨(apply_action_spec 5 (-18) 0).1,
   (apply_action_spec 5 3 RL_NOOP).2.2 (by decide) (by decide)⟩

/-- An entry found by `find_entry pid` carries that pid. -/
theorem find_entry_pid (pid : Int) (t : List pid_entry) (e : pid_entry)
    (h : find_entry pid t = some e) : e.pid = pid := by
  induction t with
  | nil => simp [find_entry] at h
  | cons f rest ih =>
    simp only [find_entry] at h
    split_ifs at h with hf
    · cases h; exact hf
    · exact ih h

/-- A pid that `find_entry` misses occurs nowhere in the table. -/
theorem find_entry_none (pid : Int) (t : List pid_entry)
    (h : find_entry pid t = none) : ∀ e ∈ t, e.pid ≠ pid := by
  induction t with
  | nil => simp
  | cons f rest ih =>
    simp only [find_entry] at h
    split_ifs at h with hf
    · intro e he
      rcases List.mem_cons.mp he with rfl | hm
      · exact hf
      · exact ih h e hm

/-- Replacing the first entry found by `find_entry` with itself leaves the
table unchanged. -/
theorem set_entry_found (e : pid_entry) (t : List pid_entry)
    (h : find_entry e.pid t = some e) : set_entry e t = t := by
  induction t with
  | nil => simp [set_entry]
  | cons f rest ih =>
    simp only [find_entry] at h
    simp only [set_entry]
    split_ifs at h ⊢ with hf
    · cases h; rfl
    · rw [ih h]

/-- Claim C8: `get_pid_entry` returns the existing entry with the table
unchanged when the pid is present, inserts exactly one fresh
default-initialized entry on a successful allocation when absent, and
preserves pid uniqueness of the table. -/
theorem get_pid_entry_unique (ok : Bool) (pid : Int) (table : List pid_entry) :
    (∀ e, find_entry pid table = some e →
        get_pid_entry ok pid table = (some e, table))
    ∧ (find_entry pid table = none →
        get_pid_entry true pid table
          = (some (new_entry pid), new_entry pid :: table))
    ∧ ((table.map pid_entry.pid).Nodup →
        (((get_pid_entry ok pid table).2).map pid_entry.pid).Nodup)
    ∧ (new_entry pid).prev_runtime = 0
    ∧ (new_entry pid).qtable = (fun _ _ => 0)
    ∧ (new_entry pid).prev_state = RlState.low
    ∧ (new_entry pid).prev_action = RL_NOOP := by
  refine ⟨?_, ?_, ?_, rfl, rfl, rfl, rfl⟩
  · intro e he
    simp [get_pid_entry, he]
  · intro hn
    simp [get_pid_entry, hn]
  · intro hd
    simp only [get_pid_entry]
    cases hfe : find_entry pid table with
    | some e => exact hd
    | none =>
      cases ok with
      | false => simp [hfe]; exact hd
      | true =>
        simp only [hfe, if_true]
        simp only [List.map_cons, List.nodup_cons]
        refine ⟨?_, hd⟩
        intro hmem
        rcases List.mem_map.mp hmem with ⟨e, he, hpe⟩
        exact find_entry_none pid table hfe e he hpe

/-- Witness for C8: creating then re-fetching pid 7 allocates exactly
once. -/
theorem get_pid_entry_unique_witness :
    get_pid_entry true 7 [] = (some (new_entry 7), [new_entry 7])
    ∧ get_pid_entry false 7 [new_entry 7] = (some (new_entry 7), [new_entry 7]) :=
  ⟨(get_pid_entry_unique true 7 []).2.1 rfl,
   (get_pid_entry_unique false 7 [new_entry 7]).1 (new_entry 7) rfl⟩

/-- Reduction of the q-update event of `worker_step` on a processed tick
(process live, entry present, already sampled): the event carries the
stored previous (state, action), the reward `-(delta / 1000000)` and the
newly classified state, and fires exactly under the guard
`0 ≤ prev_action < NUM_ACTIONS`. -/
theorem worker_step_q_event (cfg : Config) (r1 r2 : Nat) (ok : Bool)
    (p : Proc) (table : List pid_entry) (pe : pid_entry)
    (hz : p.exit_zombie = false) (hd : p.exit_dead = false)
    (hfind : find_entry p.pid table = some pe)
    (hpr : pe.prev_runtime ≠ 0) :
    (worker_step cfg r1 r2 ok p table).2.q_updated
      = if 0 ≤ pe.prev_action ∧ pe.prev_action < 3 then
          some (pe.prev_state, pe.prev_action,
            -(((if pe.prev_runtime ≤ p.sum_exec_runtime then
                  p.sum_exec_runtime - pe.prev_runtime else 0) / 1000000 : Nat) : Int),
            cpu_delta_to_state
              (if pe.prev_runtime ≤ p.sum_exec_runtime then
                  p.sum_exec_runtime - pe.prev_runtime else 0))
        else none := by
  have hget : get_pid_entry ok p.pid table = (some pe, table) := by
    simp [get_pid_entry, hfind]
  simp only [worker_step, hz, hd, Bool.or_self, Bool.false_eq_true, if_false]
  rw [hget]
  simp only [hpr, if_false]

/-- Claim C1 (amended): the entry's initial `previousAction` is the no-op
constant `RL_NOOP = 2`, which the worker's guard `0 ≤ a < NUM_ACTIONS`
accepts, so the Q-Value Updater IS invoked already on the entry's first
full processing tick, using the initial (LOW, NOOP) pair; in general the
updater runs exactly when the stored `previousAction` lies in [0, 3). -/
theorem worker_first_full_tick_updates (cfg : Config) (r1 r2 : Nat)
    (ok : Bool) (p : Proc) (table : List pid_entry) (pe : pid_entry)
    (hz : p.exit_zombie = false) (hd : p.exit_dead = false)
    (hfind : find_entry p.pid table = some pe)
    (hpr : pe.prev_runtime ≠ 0) :
    ((worker_step cfg r1 r2 ok p table).2.q_updated.isSome
        ↔ 0 ≤ pe.prev_action ∧ pe.prev_action < 3)
    ∧ (new_entry p.pid).prev_action = RL_NOOP
    ∧ (0 ≤ RL_NOOP ∧ RL_NOOP < 3) := by
  refine ⟨?_, rfl, by decide⟩
  rw [worker_step_q_event cfg r1 r2 ok p table pe hz hd hfind hpr]
  by_cases h : 0 ≤ pe.prev_action ∧ pe.prev_action < 3 <;> simp [h]

/-- Witness for C1 (amended) at a concrete second observation of pid 5. -/
theorem worker_first_full_tick_witness :
    ((worker_step ⟨200, 900, 0, 5⟩ 3 4 true
        ⟨5, false, false, 2000000, 0⟩
        [{ new_entry 5 with prev_runtime := 1000 }]).2.q_updated.isSome
      ↔ 0 ≤ ({ new_entry 5 with prev_runtime := 1000 } : pid_entry).prev_action
          ∧ ({ new_entry 5 with prev_runtime := 1000 } : pid_entry).prev_action < 3) :=
  (worker_first_full_tick_updates ⟨200, 900, 0, 5⟩ 3 4 true
    ⟨5, false, false, 2000000, 0⟩ [{ new_entry 5 with prev_runtime := 1000 }]
    { new_entry 5 with prev_runtime := 1000 } rfl rfl rfl (by decide)).1

/-- Counterexample to C1 as stated: on the first full processing tick
(delta 500000 ns, entry otherwise fresh, so `previousAction` still holds
the sentinel `RL_NOOP`), the q-updater IS invoked, with the NOOP action. -/
theorem worker_first_full_tick_counterexample :
    (worker_step ⟨200, 900, 0, 5⟩ 0 0 true
        ⟨1, false, false, 600000, 0⟩
        [{ new_entry 1 with prev_runtime := 100000 }]).2.q_updated
      = some (RlState.low, RL_NOOP, 0, RlState.low) := by
  decide

/-- Claim C7: whenever the worker invokes the q-updater, the reward it
passes equals `-(delta / 1000000)` with truncating division of the
non-negative nanosecond delta. -/
theorem worker_reward (cfg : Config) (r1 r2 : Nat) (ok : Bool) (p : Proc)
    (table : List pid_entry) (pe : pid_entry)
    (upd : RlState × Int × Int × RlState)
    (hz : p.exit_zombie = false) (hd : p.exit_dead = false)
    (hfind : find_entry p.pid table = some pe)
    (hpr : pe.prev_runtime ≠ 0)
    (hupd : (worker_step cfg r1 r2 ok p table).2.q_updated = some upd) :
    upd.2.2.1
      = -(((if pe.prev_runtime ≤ p.sum_exec_runtime then
              p.sum_exec_runtime - pe.prev_runtime else 0) / 1000000 : Nat) : Int) := by
  rw [worker_step_q_event cfg r1 r2 ok p table pe hz hd hfind hpr] at hupd
  by_cases h : 0 ≤ pe.prev_action ∧ pe.prev_action < 3
  · rw [if_pos h] at hupd
    have h2 := Option.some.inj hupd
    rw [← h2]
  · rw [if_neg h] at hupd
    exact Option.noConfusion hupd

/-- Witness for C7: a prior-tick delta of 500000 ns yields reward 0. -/
theorem worker_reward_witness :
    ((RlState.low, RL_NOOP, (0 : Int), RlState.low) :
        RlState × Int × Int × RlState).2.2.1
      = -(((if 100000 ≤ 600000 then 600000 - 100000 else 0) / 1000000 : Nat) : Int) :=
  worker_reward ⟨200, 900, 0, 5⟩ 0 0 true ⟨2, false, false, 600000, 0⟩
    [{ new_entry 2 with prev_runtime := 100000 }]
    { new_entry 2 with prev_runtime := 100000 }
    (RlState.low, RL_NOOP, 0, RlState.low)
    rfl rfl rfl (by decide) (by decide)

/-- Claim C9: when allocation fails for a process whose pid has no entry
yet, that process alone is skipped for the current tick: its step leaves
the table untouched with no side effects, and the enumeration pass simply
continues with the remaining processes on the same table. -/
theorem alloc_failure_skips (cfg : Config) (rands : Int → Nat × Nat)
    (allocOk : Int → Bool) (p : Proc) (rest : List Proc)
    (table : List pid_entry)
    (hfail : allocOk p.pid = false)
    (habsent : find_entry p.pid table = none) :
    worker_step cfg (rands p.pid).1 (rands p.pid).2 (allocOk p.pid) p table
      = (table, noEvents)
    ∧ worker_tick cfg rands allocOk (p :: rest) table
        = ((worker_tick cfg rands allocOk rest table).1,
           noEvents :: (worker_tick cfg rands allocOk rest table).2) := by
  have hget : get_pid_entry false p.pid table = (none, table) := by
    simp [get_pid_entry, habsent]
  have hstep : worker_step cfg (rands p.pid).1 (rands p.pid).2
      (allocOk p.pid) p table = (table, noEvents) := by
    rw [hfail]
    simp only [worker_step]
    cases hz : p.exit_zombie || p.exit_dead
    · rw [if_neg (by simp [hz])]
      rw [hget]
    · rw [if_pos (by simp [hz])]
  refine ⟨hstep, ?_⟩
  simp only [worker_tick]
  rw [hstep]

/-- Witness for C9 with an empty table and failing allocator. -/
theorem alloc_failure_skips_witness :
    worker_step ⟨200, 900, 0, 5⟩ 0 0 false ⟨9, false, false, 123, 0⟩ []
      = ([], noEvents) := by
  have h := alloc_failure_skips ⟨200, 900, 0, 5⟩ (fun _ => (0, 0))
    (fun _ => false) ⟨9, false, false, 123, 0⟩ [] [] rfl rfl
  exact h.1

/-- Claim C10: a process whose cumulative CPU time is still 0 keeps
`prev_runtime = 0` (indistinguishable from the never-sampled sentinel), so
its step is pure first-observation bookkeeping forever: the table is
unchanged and there is no classification, action, nice write or q-update. -/
theorem zero_runtime_stays_first (cfg : Config) (r1 r2 : Nat) (ok : Bool)
    (p : Proc) (table : List pid_entry) (pe : pid_entry)
    (hz : p.exit_zombie = false) (hd : p.exit_dead = false)
    (hfind : find_entry p.pid table = some pe)
    (hpr : pe.prev_runtime = 0)
    (hcurr : p.sum_exec_runtime = 0) :
    worker_step cfg r1 r2 ok p table = (table, noEvents) := by
  have hget : get_pid_entry ok p.pid table = (some pe, table) := by
    simp [get_pid_entry, hfind]
  have hpe : { pe with prev_runtime := p.sum_exec_runtime } = pe := by
    cases pe
    simp_all
  have hpid : pe.pid = p.pid := find_entry_pid p.pid table pe hfind
  have hset : set_entry pe table = table :=
    set_entry_found pe table (by rw [hpid]; exact hfind)
  simp only [worker_step, hz, hd, Bool.or_self, Bool.false_eq_true, if_false]
  rw [hget]
  simp [hpr, hpe, hset]

/-- Witness for C10: pid 4 with cumulative CPU time 0 stays first-observed. -/
theorem zero_runtime_stays_first_witness :
    worker_step ⟨200, 900, 0, 5⟩ 0 0 true ⟨4, false, false, 0, 0⟩ [new_entry 4]
      = ([new_entry 4], noEvents) :=
  zero_runtime_stays_first ⟨200, 900, 0, 5⟩ 0 0 true ⟨4, false, false, 0, 0⟩
    [new_entry 4] (new_entry 4) rfl rfl rfl rfl rfl

end RlSched
